import Mathlib

/-!
# Startup sequence of the training operator (cmd/training-operator.v1/main.go)

A shallow embedding of `init` and `main`.  The process is modelled as a pure
function from its environment (the controller-runtime manager, the registry of
reconciler setup functions) and its command line to the sequence of observable
calls it makes and its exit status.  The manager is a value of an arbitrary
state type that is threaded through every call that receives `mgr`.
-/

set_option autoImplicit false

namespace TrainingOperator

/-! ## Data model -/

/-- A non-nil Go `error`, carried as its message. -/
abbrev GoError := String

/-- The packages whose `AddToScheme` is called by `init`. -/
inductive ApiPackage
  | clientgoscheme
  | xgboostv1
  | pytorchv1
  | tensorflowv1
  | mxnetv1
  | mpiv1
  deriving DecidableEq, Repr

/-- The body of `init`: the `AddToScheme` calls, in source order (lines 51 to 56). -/
def init : List ApiPackage :=
  [ApiPackage.clientgoscheme, ApiPackage.xgboostv1, ApiPackage.pytorchv1,
   ApiPackage.tensorflowv1, ApiPackage.mxnetv1, ApiPackage.mpiv1]

/-- Modelled from the spec: the `Kind` constants of the API packages under
`pkg/apis/*/v1` are not part of the sources at hand.  The four frameworks named
in the usage text of `enable-scheme` carry the names written there; the
message-passing package `mpi/v1` follows the same naming pattern; the client-go
scheme holds the built-in cluster types and no job kind. -/
def ApiPackage.Kind : ApiPackage → Option String
  | ApiPackage.clientgoscheme => none
  | ApiPackage.xgboostv1 => some "XGBoostJob"
  | ApiPackage.pytorchv1 => some "PyTorchJob"
  | ApiPackage.tensorflowv1 => some "TFJob"
  | ApiPackage.mxnetv1 => some "MXNetJob"
  | ApiPackage.mpiv1 => some "MPIJob"

/-- The job kinds whose API types are in the scheme once `init` has run. -/
def schemeJobKinds : List String :=
  init.filterMap ApiPackage.Kind

/-- The kinds listed after "Now supporting" in the usage text of `enable-scheme`
(line 72). -/
def usageKinds : List String :=
  ["TFJob", "PyTorchJob", "MXNetJob", "XGBoostJob"]

/-- The usage text of the `enable-scheme` flag (lines 71 and 72). -/
def enableSchemeUsage : String :=
  "Enable scheme(s) as --enable-scheme=tfjob --enable-scheme=pytorchjob, case insensitive." ++
  " Now supporting TFJob, PyTorchJob, MXNetJob, XGBoostJob. By default, all supported schemes will be enabled."

/-- The function `strings.ToLower`, on the ASCII letters: every character is
mapped to its lower-case form. -/
def ToLower (s : String) : String :=
  ⟨s.data.map Char.toLower⟩

/-- The type `controller_v1.ReconcilerSetupFunc`: `func(mgr, enableGangScheduling) error`.
The manager is passed by reference in the source; here the function returns the
error (if any) together with the manager as it has left it. -/
abbrev ReconcilerSetupFunc (σ : Type) := σ → Bool → Option GoError × σ

/-- The map `controller_v1.SupportedSchemeReconciler`, whose contents are not
part of the sources at hand and are therefore a parameter: a finite map from
kind names to setup functions.  `kinds` lists its keys (each once, as in a Go
map) in the order in which a `range` over the map yields them. -/
structure Registry (σ : Type) where
  kinds : List String
  nodup : kinds.Nodup
  setupFunc : String → ReconcilerSetupFunc σ

/-- The map index expression `SupportedSchemeReconciler[s]` with its `ok` flag. -/
def Registry.lookup {σ : Type} (reg : Registry σ) (s : String) :
    Option (ReconcilerSetupFunc σ) :=
  if s ∈ reg.kinds then some (reg.setupFunc s) else none

/-- The type `controller_v1.EnabledSchemes`, a slice of kind names (main ranges
over it and uses each element as a key of the registry). -/
abbrev EnabledSchemes := List String

/-- Modelled from the spec: `EnabledSchemes.Empty` is not part of the sources at
hand.  "If none given": the list holds no selector. -/
def EnabledSchemes.Empty (es : EnabledSchemes) : Bool :=
  es.length == 0

/-- Modelled from the spec: `EnabledSchemes.FillAll` is not part of the sources
at hand.  "If none given, all compiled-in kinds are enabled", "By default, all
supported schemes will be enabled": every key of the registry is appended. -/
def EnabledSchemes.FillAll {σ : Type} (reg : Registry σ) (es : EnabledSchemes) :
    EnabledSchemes :=
  es ++ reg.kinds

/-- Modelled from the spec: `EnabledSchemes.Set`, the method the flag package
calls once per occurrence of the repeatable `enable-scheme` flag, is not part of
the sources at hand.  The usage text declares the value "case insensitive" and
the spec calls an unrecognized kind name a fatal startup error: the value is
compared with the supported kinds up to letter case, the matching supported
kind (as spelled in the registry) is appended, and a value matching no
supported kind is an error.  Letter case is that of ASCII letters, which is all
that kind names contain. -/
def EnabledSchemes.Set {σ : Type} (reg : Registry σ) (es : EnabledSchemes) (kind : String) :
    Except GoError EnabledSchemes :=
  match reg.kinds.find? (fun supportedKind => ToLower supportedKind == ToLower kind) with
  | some supportedKind => Except.ok (es ++ [supportedKind])
  | none => Except.error ("scheme " ++ ToLower kind ++ " is not supported yet")

/-- The fields of `ctrl.Options` that `main` sets. -/
structure Options where
  Scheme : List ApiPackage
  MetricsBindAddress : String
  Port : Nat
  HealthProbeBindAddress : String
  LeaderElection : Bool
  LeaderElectionID : String
  deriving DecidableEq, Repr

/-- The collaborators of `main` that live outside the repository.  `κ` is the
type of REST configurations and `σ` the type of manager states.
`GetConfigOrDie` is `none` when the call ends the process. -/
structure Env (κ σ : Type) where
  SupportedSchemeReconciler : Registry σ
  GetConfigOrDie : Option κ
  NewManager : κ → Options → Except GoError σ
  AddHealthzCheck : σ → String → Option GoError × σ
  AddReadyzCheck : σ → String → Option GoError × σ
  Start : σ → Option GoError

/-- The observable calls of `main` after flag parsing. -/
inductive Event
  | errorLog (msg : String)
  | infoLog (msg : String)
  | setup (kind : String) (enableGangScheduling : Bool)
  | addHealthzCheck
  | addReadyzCheck
  | start
  deriving DecidableEq, Repr

/-- Is the event the invocation of a setup function? -/
def Event.isSetup : Event → Bool
  | Event.setup _ _ => true
  | _ => false

/-- One execution of the process: the calls made, oldest first, and the exit
status (0 when `main` returns). -/
structure Run where
  events : List Event
  exitStatus : Nat
  deriving DecidableEq, Repr

/-- The local variables of `main` that the flag package writes. -/
structure Flags where
  metricsAddr : String
  probeAddr : String
  enableLeaderElection : Bool
  enabledSchemes : EnabledSchemes
  enableGangScheduling : Bool
  deriving DecidableEq, Repr

/-- The values the variables hold when no flag is given: the defaults passed to
`flag.StringVar` and `flag.BoolVar` (lines 66 to 73) and the zero value of
`enabledSchemes`. -/
def defaultFlags : Flags :=
  ⟨":8080", ":8081", false, [], false⟩

/-- One well-formed flag occurrence on the command line.  `other` stands for the
flags that do not feed the startup sequence (the two PyTorch ones and those of
the zap logger). -/
inductive FlagArg
  | metricsBindAddress (value : String)
  | healthProbeBindAddress (value : String)
  | leaderElect (value : Bool)
  | enableScheme (value : String)
  | enableGangScheduling (value : Bool)
  | other (name value : String)
  deriving DecidableEq, Repr

/-! ## Operations -/

/-- The effect of one flag occurrence: the bound variable is overwritten, and
for `enable-scheme` the `Set` method is called. -/
def parseStep {σ : Type} (reg : Registry σ) (f : Flags) : FlagArg → Except GoError Flags
  | FlagArg.metricsBindAddress v =>
      Except.ok ⟨v, f.probeAddr, f.enableLeaderElection, f.enabledSchemes, f.enableGangScheduling⟩
  | FlagArg.healthProbeBindAddress v =>
      Except.ok ⟨f.metricsAddr, v, f.enableLeaderElection, f.enabledSchemes, f.enableGangScheduling⟩
  | FlagArg.leaderElect v =>
      Except.ok ⟨f.metricsAddr, f.probeAddr, v, f.enabledSchemes, f.enableGangScheduling⟩
  | FlagArg.enableScheme v =>
      match EnabledSchemes.Set reg f.enabledSchemes v with
      | Except.ok es =>
          Except.ok ⟨f.metricsAddr, f.probeAddr, f.enableLeaderElection, es, f.enableGangScheduling⟩
      | Except.error e => Except.error e
  | FlagArg.enableGangScheduling v =>
      Except.ok ⟨f.metricsAddr, f.probeAddr, f.enableLeaderElection, f.enabledSchemes, v⟩
  | FlagArg.other _ _ => Except.ok f

/-- The call `flag.Parse()`: the occurrences are processed from left to right and
the first error stops the parse. -/
def parseFlags {σ : Type} (reg : Registry σ) : List FlagArg → Flags → Except GoError Flags
  | [], f => Except.ok f
  | a :: rest, f =>
      match parseStep reg f a with
      | Except.ok f' => parseFlags reg rest f'
      | Except.error e => Except.error e

/-- The loop of lines 107 to 118.  The result is the calls made and the manager
when the loop runs to its end, `none` when it reaches `os.Exit(1)`. -/
def setupReconcilers {σ : Type} (reg : Registry σ) (enableGangScheduling : Bool) :
    List String → σ → List Event × Option σ
  | [], mgr => ([], some mgr)
  | s :: rest, mgr =>
      match reg.lookup s with
      | none => ([Event.errorLog "scheme not supported"], none)
      | some setupFunc =>
          match setupFunc mgr enableGangScheduling with
          | (some _, _) =>
              ([Event.setup s enableGangScheduling,
                Event.errorLog "unable to create controller"], none)
          | (none, mgr') =>
              let r := setupReconcilers reg enableGangScheduling rest mgr'
              (Event.setup s enableGangScheduling :: r.1, r.2)

/-- The manager as the loop leaves it after the entries of the list, each setup
function having been called on the manager left by the entries before it. -/
def managerAfter {σ : Type} (reg : Registry σ) (enableGangScheduling : Bool) :
    List String → σ → σ
  | [], mgr => mgr
  | s :: rest, mgr =>
      match reg.lookup s with
      | none => managerAfter reg enableGangScheduling rest mgr
      | some setupFunc =>
          managerAfter reg enableGangScheduling rest (setupFunc mgr enableGangScheduling).2

/-- Every setup function the loop invokes returns no error: for each entry of
the list, the function registered for it, called on the manager left by the
entries before it, returns nil. -/
def SetupsSucceed {σ : Type} (reg : Registry σ) (enableGangScheduling : Bool)
    (es : List String) (mgr : σ) : Prop :=
  ∀ (pre : List String) (s : String) (post : List String) (setupFunc : ReconcilerSetupFunc σ),
    es = pre ++ s :: post → reg.lookup s = some setupFunc →
    (setupFunc (managerAfter reg enableGangScheduling pre mgr) enableGangScheduling).1 = none

/-- The number of invocations of the setup function of a kind in a run. -/
def setupCount (kind : String) (events : List Event) : Nat :=
  events.countP (fun e => match e with
    | Event.setup k _ => k == kind
    | _ => false)

/-- The values of the `enable-scheme` occurrences on a command line, in order. -/
def schemeSelectors : List FlagArg → List String
  | [] => []
  | FlagArg.enableScheme v :: rest => v :: schemeSelectors rest
  | _ :: rest => schemeSelectors rest

/-- The values of the `enable-gang-scheduling` occurrences on a command line, in order. -/
def gangOccurrences : List FlagArg → List Bool
  | [] => []
  | FlagArg.enableGangScheduling v :: rest => v :: gangOccurrences rest
  | _ :: rest => gangOccurrences rest

/-- Lines 104 to 106: an empty list of enabled schemes is filled with all
supported ones. -/
def effectiveSchemes {σ : Type} (reg : Registry σ) (es : EnabledSchemes) : EnabledSchemes :=
  if EnabledSchemes.Empty es then EnabledSchemes.FillAll reg es else es

/-- The options handed to `ctrl.NewManager` (lines 89 to 96). -/
def managerOptions (f : Flags) : Options :=
  ⟨init, f.metricsAddr, 9443, f.probeAddr, f.enableLeaderElection, "1ca428e5."⟩

/-- Lines 121 to 134: the two checks and the start of the manager. -/
def checksAndStart {κ σ : Type} (env : Env κ σ) (mgr : σ) : Run :=
  match env.AddHealthzCheck mgr "healthz" with
  | (some _, _) => ⟨[Event.addHealthzCheck, Event.errorLog "unable to set up health check"], 1⟩
  | (none, mgr1) =>
      match env.AddReadyzCheck mgr1 "readyz" with
      | (some _, _) =>
          ⟨[Event.addHealthzCheck, Event.addReadyzCheck,
            Event.errorLog "unable to set up ready check"], 1⟩
      | (none, mgr2) =>
          match env.Start mgr2 with
          | some _ =>
              ⟨[Event.addHealthzCheck, Event.addReadyzCheck, Event.infoLog "starting manager",
                Event.start, Event.errorLog "problem running manager"], 1⟩
          | none =>
              ⟨[Event.addHealthzCheck, Event.addReadyzCheck, Event.infoLog "starting manager",
                Event.start], 0⟩

/-- The body of `main` from line 89 on, given the variables as parsed. -/
def mainAfterParse {κ σ : Type} (env : Env κ σ) (f : Flags) : Run :=
  match env.GetConfigOrDie with
  | none => ⟨[], 1⟩
  | some cfg =>
      match env.NewManager cfg (managerOptions f) with
      | Except.error _ => ⟨[Event.errorLog "unable to start manager"], 1⟩
      | Except.ok mgr =>
          match setupReconcilers env.SupportedSchemeReconciler f.enableGangScheduling
              (effectiveSchemes env.SupportedSchemeReconciler f.enabledSchemes) mgr with
          | (evs, none) => ⟨evs, 1⟩
          | (evs, some mgr') =>
              let r := checksAndStart env mgr'
              ⟨evs ++ r.events, r.exitStatus⟩

/-- The function `main`.  A failing `flag.Parse` ends the process with status 2
(the command line flag set exits on error) before anything else is done. -/
def main {κ σ : Type} (env : Env κ σ) (args : List FlagArg) : Run :=
  match parseFlags env.SupportedSchemeReconciler args defaultFlags with
  | Except.error _ => ⟨[], 2⟩
  | Except.ok f => mainAfterParse env f

/-! ## Concrete environments used to evaluate the model -/

/-- A registry of two kinds whose setup functions record the kind in the manager
and never fail. -/
def sampleRegistry : Registry (List String) :=
  ⟨["TFJob", "PyTorchJob"], by decide, fun k mgr _ => (none, mgr ++ [k])⟩

/-- An environment in which every collaborator succeeds. -/
def sampleEnv : Env Unit (List String) :=
  ⟨sampleRegistry, some (), fun _ _ => Except.ok [], fun mgr _ => (none, mgr),
   fun mgr _ => (none, mgr), fun _ => none⟩

/-! ## The loop over the enabled schemes -/

/-- The lower-casing used here is the one of the standard library. -/
theorem ToLower_eq_toLower (s : String) : ToLower s = s.toLower :=
  (String.map_eq Char.toLower s).symm

theorem lookup_isSome_iff {σ : Type} (reg : Registry σ) (s : String) :
    (reg.lookup s).isSome = true ↔ s ∈ reg.kinds := by
  unfold Registry.lookup
  by_cases h : s ∈ reg.kinds <;> simp [h]

theorem lookup_of_mem {σ : Type} (reg : Registry σ) (s : String) (h : s ∈ reg.kinds) :
    reg.lookup s = some (reg.setupFunc s) := by
  unfold Registry.lookup
  simp [h]

theorem setupsSucceed_nil {σ : Type} (reg : Registry σ) (g : Bool) (mgr : σ) :
    SetupsSucceed reg g [] mgr := by
  intro pre s post f h
  cases pre <;> simp at h

theorem setupsSucceed_cons {σ : Type} (reg : Registry σ) (g : Bool) (s : String)
    (rest : List String) (mgr : σ) (f : ReconcilerSetupFunc σ) (hf : reg.lookup s = some f) :
    SetupsSucceed reg g (s :: rest) mgr ↔
      (f mgr g).1 = none ∧ SetupsSucceed reg g rest (f mgr g).2 := by
  constructor
  · intro h
    refine ⟨h [] s rest f rfl hf, ?_⟩
    intro pre t post f' hsplit hf'
    have := h (s :: pre) t post f' (by simp [hsplit]) hf'
    simpa [managerAfter, hf] using this
  · rintro ⟨h0, hrest⟩ pre t post f' hsplit hf'
    cases pre with
    | nil =>
        simp at hsplit
        obtain ⟨rfl, -⟩ := hsplit
        rw [hf] at hf'
        cases hf'
        simpa [managerAfter] using h0
    | cons p pre =>
        simp at hsplit
        obtain ⟨rfl, hsplit⟩ := hsplit
        have := hrest pre t post f' hsplit hf'
        simpa [managerAfter, hf] using this

/-- When the loop runs to its end, it has invoked one setup function per entry,
in list order, every entry was supported and every invocation returned nil. -/
theorem setupReconcilers_some {σ : Type} (reg : Registry σ) (g : Bool) :
    ∀ (es : List String) (mgr mgr' : σ) (evs : List Event),
      setupReconcilers reg g es mgr = (evs, some mgr') →
      evs = es.map (fun s => Event.setup s g) ∧ mgr' = managerAfter reg g es mgr ∧
      (∀ s ∈ es, (reg.lookup s).isSome = true) ∧ SetupsSucceed reg g es mgr := by
  intro es
  induction es with
  | nil =>
      intro mgr mgr' evs h
      simp [setupReconcilers] at h
      obtain ⟨rfl, rfl⟩ := h
      exact ⟨rfl, rfl, by simp, setupsSucceed_nil reg g _⟩
  | cons s rest ih =>
      intro mgr mgr' evs h
      unfold setupReconcilers at h
      cases hl : reg.lookup s with
      | none => simp [hl] at h
      | some f =>
          rw [hl] at h
          simp only at h
          rcases hres : f mgr g with ⟨err, m1⟩
          rw [hres] at h
          cases err with
          | some e => simp at h
          | none =>
              simp only at h
              rcases hrec : setupReconcilers reg g rest m1 with ⟨evs1, o1⟩
              rw [hrec] at h
              simp at h
              obtain ⟨rfl, rfl⟩ := h
              obtain ⟨h1, h2, h3, h4⟩ := ih m1 mgr' evs1 hrec
              refine ⟨by simp [h1], ?_, ?_, ?_⟩
              · simp [managerAfter, hl, hres, h2]
              · intro t ht
                rcases List.mem_cons.1 ht with rfl | ht
                · simp [hl]
                · exact h3 t ht
              · rw [setupsSucceed_cons reg g s rest mgr f hl]
                simp [hres, h4]

/-- When every entry is supported and every invocation returns nil, the loop
runs to its end. -/
theorem setupReconcilers_ok {σ : Type} (reg : Registry σ) (g : Bool) :
    ∀ (es : List String) (mgr : σ),
      (∀ s ∈ es, (reg.lookup s).isSome = true) → SetupsSucceed reg g es mgr →
      setupReconcilers reg g es mgr =
        (es.map (fun s => Event.setup s g), some (managerAfter reg g es mgr)) := by
  intro es
  induction es with
  | nil => intro mgr _ _; simp [setupReconcilers, managerAfter]
  | cons s rest ih =>
      intro mgr hsup hok
      have hs := hsup s (List.mem_cons_self _ _)
      cases hl : reg.lookup s with
      | none => simp [hl] at hs
      | some f =>
          rw [setupsSucceed_cons reg g s rest mgr f hl] at hok
          rcases hres : f mgr g with ⟨err, m1⟩
          rw [hres] at hok
          simp only at hok
          obtain ⟨rfl, hok⟩ := hok
          have := ih m1 (fun t ht => hsup t (List.mem_cons_of_mem _ ht)) hok
          simp [setupReconcilers, managerAfter, hl, hres, this]

/-- An unsupported entry anywhere in the list keeps the loop from running to
its end. -/
theorem setupReconcilers_unsupported {σ : Type} (reg : Registry σ) (g : Bool)
    (es : List String) (mgr : σ) (h : ∃ s ∈ es, reg.lookup s = none) :
    (setupReconcilers reg g es mgr).2 = none := by
  cases hr : setupReconcilers reg g es mgr with
  | mk evs o =>
      cases o with
      | none => rfl
      | some m' =>
          obtain ⟨s, hs, hnone⟩ := h
          have := (setupReconcilers_some reg g es mgr m' evs hr).2.2.1 s hs
          simp [hnone] at this

/-- The loop never starts the manager, and every setup function it invokes
belongs to an entry of the list and receives the loop's flag value. -/
theorem setupReconcilers_events {σ : Type} (reg : Registry σ) (g : Bool) :
    ∀ (es : List String) (mgr : σ) (e : Event), e ∈ (setupReconcilers reg g es mgr).1 →
      e ≠ Event.start ∧ (∀ k b, e = Event.setup k b → b = g ∧ k ∈ es) := by
  intro es
  induction es with
  | nil => intro mgr e he; simp [setupReconcilers] at he
  | cons s rest ih =>
      intro mgr e he
      unfold setupReconcilers at he
      cases hl : reg.lookup s with
      | none =>
          simp [hl] at he
          subst he
          simp
      | some f =>
          rw [hl] at he
          simp only at he
          rcases hres : f mgr g with ⟨err, m1⟩
          rw [hres] at he
          cases err with
          | some e0 =>
              simp at he
              rcases he with rfl | rfl <;> simp
          | none =>
              simp only at he
              rcases List.mem_cons.1 he with rfl | he
              · simp
              · obtain ⟨h1, h2⟩ := ih m1 e he
                refine ⟨h1, fun k b hk => ?_⟩
                obtain ⟨hb, hmem⟩ := h2 k b hk
                exact ⟨hb, List.mem_cons_of_mem _ hmem⟩

/-! ## The checks and the start of the manager -/

theorem checksAndStart_no_setup {κ σ : Type} (env : Env κ σ) (mgr : σ) :
    ∀ e ∈ (checksAndStart env mgr).events, e.isSetup = false := by
  intro e he
  unfold checksAndStart at he
  rcases h1 : env.AddHealthzCheck mgr "healthz" with ⟨e1, m1⟩
  rw [h1] at he
  cases e1 with
  | some x => simp at he; rcases he with rfl | rfl <;> rfl
  | none =>
      simp only at he
      rcases h2 : env.AddReadyzCheck m1 "readyz" with ⟨e2, m2⟩
      rw [h2] at he
      cases e2 with
      | some x => simp at he; rcases he with rfl | rfl | rfl <;> rfl
      | none =>
          simp only at he
          cases h3 : env.Start m2 with
          | some x => simp [h3] at he; rcases he with rfl | rfl | rfl | rfl | rfl <;> rfl
          | none => simp [h3] at he; rcases he with rfl | rfl | rfl | rfl <;> rfl

theorem checksAndStart_start {κ σ : Type} (env : Env κ σ) (mgr : σ) :
    Event.start ∈ (checksAndStart env mgr).events ↔
      (env.AddHealthzCheck mgr "healthz").1 = none ∧
      (env.AddReadyzCheck (env.AddHealthzCheck mgr "healthz").2 "readyz").1 = none := by
  unfold checksAndStart
  rcases h1 : env.AddHealthzCheck mgr "healthz" with ⟨e1, m1⟩
  cases e1 with
  | some x => simp
  | none =>
      simp only
      rcases h2 : env.AddReadyzCheck m1 "readyz" with ⟨e2, m2⟩
      cases e2 with
      | some x => simp
      | none =>
          cases h3 : env.Start m2 <;> simp [h3]

theorem checksAndStart_started {κ σ : Type} (env : Env κ σ) (mgr : σ)
    (h : Event.start ∈ (checksAndStart env mgr).events) :
    ∃ tail, (checksAndStart env mgr).events =
        [Event.addHealthzCheck, Event.addReadyzCheck, Event.infoLog "starting manager",
          Event.start] ++ tail ∧ ∀ e ∈ tail, e.isSetup = false := by
  unfold checksAndStart at h ⊢
  rcases h1 : env.AddHealthzCheck mgr "healthz" with ⟨e1, m1⟩
  rw [h1] at h
  cases e1 with
  | some x => simp at h
  | none =>
      simp only at h ⊢
      rcases h2 : env.AddReadyzCheck m1 "readyz" with ⟨e2, m2⟩
      rw [h2] at h
      cases e2 with
      | some x => simp at h
      | none =>
          cases h3 : env.Start m2 with
          | some x =>
              exact ⟨[Event.errorLog "problem running manager"], by simp [h3], by simp [Event.isSetup]⟩
          | none => exact ⟨[], by simp [h3], by simp⟩

/-! ## The body of main -/

/-- The run of `main` once the configuration and the manager are there. -/
theorem mainAfterParse_of_manager {κ σ : Type} (env : Env κ σ) (f : Flags) (cfg : κ) (mgr : σ)
    (hcfg : env.GetConfigOrDie = some cfg)
    (hmgr : env.NewManager cfg (managerOptions f) = Except.ok mgr) :
    mainAfterParse env f =
      match setupReconcilers env.SupportedSchemeReconciler f.enableGangScheduling
          (effectiveSchemes env.SupportedSchemeReconciler f.enabledSchemes) mgr with
      | (evs, none) => ⟨evs, 1⟩
      | (evs, some mgr') =>
          ⟨evs ++ (checksAndStart env mgr').events, (checksAndStart env mgr').exitStatus⟩ := by
  unfold mainAfterParse
  simp [hcfg, hmgr]

/-- A started manager means that the configuration and the manager were
obtained and the loop ran to its end. -/
theorem mainAfterParse_started {κ σ : Type} (env : Env κ σ) (f : Flags)
    (h : Event.start ∈ (mainAfterParse env f).events) :
    ∃ cfg mgr evs mgr', env.GetConfigOrDie = some cfg ∧
      env.NewManager cfg (managerOptions f) = Except.ok mgr ∧
      setupReconcilers env.SupportedSchemeReconciler f.enableGangScheduling
        (effectiveSchemes env.SupportedSchemeReconciler f.enabledSchemes) mgr = (evs, some mgr') ∧
      (mainAfterParse env f).events = evs ++ (checksAndStart env mgr').events ∧
      Event.start ∈ (checksAndStart env mgr').events := by
  cases hcfg : env.GetConfigOrDie with
  | none => simp [mainAfterParse, hcfg] at h
  | some cfg =>
      cases hmgr : env.NewManager cfg (managerOptions f) with
      | error e => simp [mainAfterParse, hcfg, hmgr] at h
      | ok mgr =>
          rw [mainAfterParse_of_manager env f cfg mgr hcfg hmgr] at h ⊢
          rcases hl : setupReconcilers env.SupportedSchemeReconciler f.enableGangScheduling
              (effectiveSchemes env.SupportedSchemeReconciler f.enabledSchemes) mgr with ⟨evs, o⟩
          rw [hl] at h
          have hno := setupReconcilers_events env.SupportedSchemeReconciler f.enableGangScheduling
              (effectiveSchemes env.SupportedSchemeReconciler f.enabledSchemes) mgr Event.start
          rw [hl] at hno
          cases o with
          | none =>
              simp only at h
              exact absurd rfl (hno h).1
          | some mgr' =>
              simp only at h
              refine ⟨cfg, mgr, evs, mgr', rfl, hmgr, hl, rfl, ?_⟩
              rcases List.mem_append.1 h with h | h
              · exact absurd rfl (hno h).1
              · exact h

theorem effectiveSchemes_of_ne_nil {σ : Type} (reg : Registry σ) (es : EnabledSchemes)
    (h : es ≠ []) : effectiveSchemes reg es = es := by
  cases es with
  | nil => exact absurd rfl h
  | cons a l => simp [effectiveSchemes, EnabledSchemes.Empty]

theorem effectiveSchemes_nil {σ : Type} (reg : Registry σ) :
    effectiveSchemes reg [] = reg.kinds := by
  simp [effectiveSchemes, EnabledSchemes.Empty, EnabledSchemes.FillAll]

/-- Every setup function invoked by the body of `main` receives the value of
the gang scheduling variable. -/
theorem mainAfterParse_setup_arg {κ σ : Type} (env : Env κ σ) (f : Flags) (k : String) (b : Bool)
    (h : Event.setup k b ∈ (mainAfterParse env f).events) : b = f.enableGangScheduling := by
  cases hcfg : env.GetConfigOrDie with
  | none => simp [mainAfterParse, hcfg] at h
  | some cfg =>
      cases hmgr : env.NewManager cfg (managerOptions f) with
      | error e => simp [mainAfterParse, hcfg, hmgr] at h
      | ok mgr =>
          rw [mainAfterParse_of_manager env f cfg mgr hcfg hmgr] at h
          rcases hl : setupReconcilers env.SupportedSchemeReconciler f.enableGangScheduling
              (effectiveSchemes env.SupportedSchemeReconciler f.enabledSchemes) mgr with ⟨evs, o⟩
          rw [hl] at h
          have hev := setupReconcilers_events env.SupportedSchemeReconciler f.enableGangScheduling
              (effectiveSchemes env.SupportedSchemeReconciler f.enabledSchemes) mgr
              (Event.setup k b)
          rw [hl] at hev
          cases o with
          | none => exact ((hev h).2 k b rfl).1
          | some mgr' =>
              simp only at h
              rcases List.mem_append.1 h with h | h
              · exact ((hev h).2 k b rfl).1
              · have := checksAndStart_no_setup env mgr' _ h
                simp [Event.isSetup] at this

/-! ## Flag parsing -/

theorem parseStep_gang {σ : Type} (reg : Registry σ) (f f' : Flags) (a : FlagArg)
    (h : parseStep reg f a = Except.ok f') :
    f'.enableGangScheduling =
      match a with
      | FlagArg.enableGangScheduling v => v
      | _ => f.enableGangScheduling := by
  cases a with
  | enableScheme v =>
      simp only [parseStep] at h
      cases hs : EnabledSchemes.Set reg f.enabledSchemes v with
      | error e => simp [hs] at h
      | ok es => simp [hs] at h; subst h; rfl
  | _ => simp [parseStep] at h; subst h; rfl

/-- The gang scheduling variable holds the value of the last occurrence of the
flag, and its initial value when the flag does not occur. -/
theorem parseFlags_gang {σ : Type} (reg : Registry σ) :
    ∀ (args : List FlagArg) (f0 f : Flags), parseFlags reg args f0 = Except.ok f →
      f.enableGangScheduling = (gangOccurrences args).getLast?.getD f0.enableGangScheduling := by
  intro args
  induction args with
  | nil => intro f0 f h; simp [parseFlags] at h; subst h; simp [gangOccurrences]
  | cons a rest ih =>
      intro f0 f h
      unfold parseFlags at h
      cases hs : parseStep reg f0 a with
      | error e => simp [hs] at h
      | ok f1 =>
          simp only [hs] at h
          have h1 := parseStep_gang reg f0 f1 a hs
          have h2 := ih f1 f h
          rw [h2, h1]
          cases a <;> simp [gangOccurrences, List.getLast?_cons]

theorem set_ok_mem {σ : Type} (reg : Registry σ) (es es' : EnabledSchemes) (v : String)
    (h : EnabledSchemes.Set reg es v = Except.ok es') :
    ∃ k, k ∈ reg.kinds ∧ ToLower k = ToLower v ∧ es' = es ++ [k] := by
  unfold EnabledSchemes.Set at h
  cases hf : reg.kinds.find? (fun supportedKind => ToLower supportedKind == ToLower v) with
  | none => simp [hf] at h
  | some k =>
      simp [hf] at h
      refine ⟨k, List.mem_of_find?_eq_some hf, ?_, h.symm⟩
      have := List.find?_some hf
      simpa using this

/-- A value that is a supported kind up to letter case is accepted and the kind
is appended as the registry spells it. -/
theorem set_variant {σ : Type} (reg : Registry σ) (es : EnabledSchemes) (k v : String)
    (hk : k ∈ reg.kinds) (hv : ToLower v = ToLower k)
    (hcase : ∀ k' ∈ reg.kinds, ToLower k' = ToLower k → k' = k) :
    EnabledSchemes.Set reg es v = Except.ok (es ++ [k]) := by
  cases hs : EnabledSchemes.Set reg es v with
  | error e =>
      unfold EnabledSchemes.Set at hs
      cases hf : reg.kinds.find? (fun supportedKind => ToLower supportedKind == ToLower v) with
      | none =>
          have := List.find?_eq_none.1 hf k hk
          simp [hv] at this
      | some k' => simp [hf] at hs
  | ok es' =>
      obtain ⟨k', hk', hlow, rfl⟩ := set_ok_mem reg es es' v hs
      rw [hcase k' hk' (hlow.trans hv)]

theorem parseStep_schemes {σ : Type} (reg : Registry σ) (f f' : Flags) (a : FlagArg)
    (h : parseStep reg f a = Except.ok f') :
    (∀ s ∈ f.enabledSchemes, s ∈ f'.enabledSchemes) ∧
    ((∀ s ∈ f.enabledSchemes, s ∈ reg.kinds) → ∀ s ∈ f'.enabledSchemes, s ∈ reg.kinds) := by
  cases a with
  | enableScheme v =>
      simp only [parseStep] at h
      cases hs : EnabledSchemes.Set reg f.enabledSchemes v with
      | error e => simp [hs] at h
      | ok es =>
          simp [hs] at h
          subst h
          obtain ⟨k, hk, -, rfl⟩ := set_ok_mem reg _ _ v hs
          refine ⟨fun s hs => List.mem_append_left _ hs, fun hall s hs => ?_⟩
          rcases List.mem_append.1 hs with hs | hs
          · exact hall s hs
          · simp at hs; subst hs; exact hk
  | _ => simp [parseStep] at h; subst h; exact ⟨fun s hs => hs, fun hall => hall⟩

theorem parseFlags_schemes {σ : Type} (reg : Registry σ) :
    ∀ (args : List FlagArg) (f0 f : Flags), parseFlags reg args f0 = Except.ok f →
      (∀ s ∈ f0.enabledSchemes, s ∈ f.enabledSchemes) ∧
      ((∀ s ∈ f0.enabledSchemes, s ∈ reg.kinds) → ∀ s ∈ f.enabledSchemes, s ∈ reg.kinds) := by
  intro args
  induction args with
  | nil => intro f0 f h; simp [parseFlags] at h; subst h; exact ⟨fun s hs => hs, fun hall => hall⟩
  | cons a rest ih =>
      intro f0 f h
      unfold parseFlags at h
      cases hs : parseStep reg f0 a with
      | error e => simp [hs] at h
      | ok f1 =>
          simp only [hs] at h
          obtain ⟨a1, a2⟩ := parseStep_schemes reg f0 f1 a hs
          obtain ⟨b1, b2⟩ := ih f1 f h
          exact ⟨fun s hs => b1 s (a1 s hs), fun hall => b2 (a2 hall)⟩

/-- A command line without `enable-scheme` parses and leaves the list of enabled
schemes as it was. -/
theorem parseFlags_no_selector {σ : Type} (reg : Registry σ) :
    ∀ (args : List FlagArg) (f0 : Flags), schemeSelectors args = [] →
      ∃ f, parseFlags reg args f0 = Except.ok f ∧ f.enabledSchemes = f0.enabledSchemes := by
  intro args
  induction args with
  | nil => intro f0 _; exact ⟨f0, rfl, rfl⟩
  | cons a rest ih =>
      intro f0 h
      cases a with
      | enableScheme v => simp [schemeSelectors] at h
      | _ =>
          simp only [schemeSelectors] at h
          obtain ⟨f, h1, h2⟩ := ih _ h
          exact ⟨f, by simpa [parseFlags, parseStep] using h1, by simpa using h2⟩

/-- A selector that is a supported kind up to letter case puts that kind on the
list of enabled schemes. -/
theorem parseFlags_variant {σ : Type} (reg : Registry σ) (k v : String)
    (hk : k ∈ reg.kinds) (hv : ToLower v = ToLower k)
    (hcase : ∀ k' ∈ reg.kinds, ToLower k' = ToLower k → k' = k) :
    ∀ (args : List FlagArg) (f0 f : Flags), parseFlags reg args f0 = Except.ok f →
      FlagArg.enableScheme v ∈ args → k ∈ f.enabledSchemes := by
  intro args
  induction args with
  | nil => intro f0 f _ hmem; simp at hmem
  | cons a rest ih =>
      intro f0 f h hmem
      unfold parseFlags at h
      cases hs : parseStep reg f0 a with
      | error e => simp [hs] at h
      | ok f1 =>
          simp only [hs] at h
          rcases List.mem_cons.1 hmem with rfl | hmem
          · have hset := set_variant reg f0.enabledSchemes k v hk hv hcase
            simp [parseStep, hset] at hs
            subst hs
            exact (parseFlags_schemes reg rest _ f h).1 k (by simp)
          · exact ih f1 f h hmem

/-! ## Counting and ordering of calls -/

theorem setupCount_map {g : Bool} (k : String) (es : List String) :
    setupCount k (es.map (fun s => Event.setup s g)) = es.count k := by
  induction es with
  | nil => rfl
  | cons s rest ih =>
      unfold setupCount at ih ⊢
      rw [List.map_cons, List.countP_cons, ih, List.count_cons]

theorem setupCount_of_no_setup (k : String) (evs : List Event)
    (h : ∀ e ∈ evs, e.isSetup = false) : setupCount k evs = 0 := by
  unfold setupCount
  rw [List.countP_eq_zero]
  intro e he
  have := h e he
  cases e <;> simp_all [Event.isSetup]

theorem setupCount_append (k : String) (l₁ l₂ : List Event) :
    setupCount k (l₁ ++ l₂) = setupCount k l₁ + setupCount k l₂ := by
  unfold setupCount
  exact List.countP_append _ _ _

/-- Whatever precedes an occurrence of `x` contains every initial segment of
the list that is free of `x`. -/
theorem mem_before_of_split {α : Type} (x : α) :
    ∀ (A B pre post : List α), x ∉ A → A ++ B = pre ++ x :: post → ∀ y ∈ A, y ∈ pre := by
  intro A
  induction A with
  | nil => intro B pre post _ _ y hy; simp at hy
  | cons a A ih =>
      intro B pre post hx heq y hy
      cases pre with
      | nil =>
          simp at heq
          exact absurd (List.mem_cons.2 (Or.inl heq.1.symm)) hx
      | cons p pre =>
          simp at heq
          obtain ⟨rfl, heq⟩ := heq
          rcases List.mem_cons.1 hy with rfl | hy
          · exact List.mem_cons_self _ _
          · exact List.mem_cons_of_mem _
              (ih B pre post (fun hmem => hx (List.mem_cons_of_mem _ hmem)) heq y hy)

/-- With every entry supported, the loop never reports an unsupported scheme. -/
theorem setupReconcilers_no_unsupported_log {σ : Type} (reg : Registry σ) (g : Bool) :
    ∀ (es : List String) (mgr : σ), (∀ s ∈ es, s ∈ reg.kinds) →
      Event.errorLog "scheme not supported" ∉ (setupReconcilers reg g es mgr).1 := by
  intro es
  induction es with
  | nil => intro mgr _; simp [setupReconcilers]
  | cons s rest ih =>
      intro mgr hall
      have hl := lookup_of_mem reg s (hall s (List.mem_cons_self _ _))
      unfold setupReconcilers
      rw [hl]
      simp only
      rcases hres : reg.setupFunc s mgr g with ⟨err, m1⟩
      cases err with
      | some e => simp
      | none =>
          simp only
          intro hmem
          rcases List.mem_cons.1 hmem with h | h
          · cases h
          · exact ih m1 (fun t ht => hall t (List.mem_cons_of_mem _ ht)) h

theorem checksAndStart_no_unsupported_log {κ σ : Type} (env : Env κ σ) (mgr : σ) :
    Event.errorLog "scheme not supported" ∉ (checksAndStart env mgr).events := by
  intro h
  unfold checksAndStart at h
  rcases h1 : env.AddHealthzCheck mgr "healthz" with ⟨e1, m1⟩
  rw [h1] at h
  cases e1 with
  | some x => simp at h
  | none =>
      simp only at h
      rcases h2 : env.AddReadyzCheck m1 "readyz" with ⟨e2, m2⟩
      rw [h2] at h
      cases e2 with
      | some x => simp at h
      | none =>
          simp only at h
          cases h3 : env.Start m2 <;> simp [h3] at h

/-- The events of a run in which the configuration and the manager were
obtained, every entry is supported and every invocation returns nil. -/
theorem mainAfterParse_events_of_ok {κ σ : Type} (env : Env κ σ) (f : Flags) (cfg : κ) (mgr : σ)
    (hcfg : env.GetConfigOrDie = some cfg)
    (hmgr : env.NewManager cfg (managerOptions f) = Except.ok mgr)
    (hsup : ∀ s ∈ effectiveSchemes env.SupportedSchemeReconciler f.enabledSchemes,
      (env.SupportedSchemeReconciler.lookup s).isSome = true)
    (hok : SetupsSucceed env.SupportedSchemeReconciler f.enableGangScheduling
      (effectiveSchemes env.SupportedSchemeReconciler f.enabledSchemes) mgr) :
    (mainAfterParse env f).events =
      (effectiveSchemes env.SupportedSchemeReconciler f.enabledSchemes).map
        (fun s => Event.setup s f.enableGangScheduling) ++
      (checksAndStart env (managerAfter env.SupportedSchemeReconciler f.enableGangScheduling
        (effectiveSchemes env.SupportedSchemeReconciler f.enabledSchemes) mgr)).events := by
  rw [mainAfterParse_of_manager env f cfg mgr hcfg hmgr,
    setupReconcilers_ok env.SupportedSchemeReconciler f.enableGangScheduling _ mgr hsup hok]

/-! ## The claims -/

/-- C1: an unrecognized kind name is a fatal startup error.  Whenever the list
of enabled schemes holds a name that is not a key of the registry, at any
position and whatever the collaborators and the other setup functions return,
the process ends with exit status 1 and the manager is never started. -/
theorem unsupported_scheme_is_fatal {κ σ : Type} (env : Env κ σ) (f : Flags)
    (h : ∃ s ∈ f.enabledSchemes, env.SupportedSchemeReconciler.lookup s = none) :
    (mainAfterParse env f).exitStatus = 1 ∧ Event.start ∉ (mainAfterParse env f).events := by
  have hne : f.enabledSchemes ≠ [] := by
    obtain ⟨s, hs, -⟩ := h
    exact List.ne_nil_of_mem hs
  have heff := effectiveSchemes_of_ne_nil env.SupportedSchemeReconciler f.enabledSchemes hne
  constructor
  · cases hcfg : env.GetConfigOrDie with
    | none => simp [mainAfterParse, hcfg]
    | some cfg =>
        cases hmgr : env.NewManager cfg (managerOptions f) with
        | error e => simp [mainAfterParse, hcfg, hmgr]
        | ok mgr =>
            rw [mainAfterParse_of_manager env f cfg mgr hcfg hmgr, heff]
            have := setupReconcilers_unsupported env.SupportedSchemeReconciler
              f.enableGangScheduling f.enabledSchemes mgr h
            rcases hl : setupReconcilers env.SupportedSchemeReconciler
              f.enableGangScheduling f.enabledSchemes mgr with ⟨evs, o⟩
            rw [hl] at this
            simp only at this
            subst this
            rfl
  · intro hstart
    obtain ⟨cfg, mgr, evs, mgr', -, -, hl, -, -⟩ := mainAfterParse_started env f hstart
    rw [heff] at hl
    have := setupReconcilers_unsupported env.SupportedSchemeReconciler
      f.enableGangScheduling f.enabledSchemes mgr h
    rw [hl] at this
    cases this

/-- Witness of C1: the supported "TFJob" followed by the unknown "CaffeJob". -/
theorem unsupported_scheme_is_fatal_witness :
    (∃ s ∈ (Flags.mk ":8080" ":8081" false ["TFJob", "CaffeJob"] true).enabledSchemes,
        sampleEnv.SupportedSchemeReconciler.lookup s = none) ∧
      (mainAfterParse sampleEnv ⟨":8080", ":8081", false, ["TFJob", "CaffeJob"], true⟩).exitStatus = 1 ∧
      Event.start ∉
        (mainAfterParse sampleEnv ⟨":8080", ":8081", false, ["TFJob", "CaffeJob"], true⟩).events :=
  have h : ∃ s ∈ (Flags.mk ":8080" ":8081" false ["TFJob", "CaffeJob"] true).enabledSchemes,
      sampleEnv.SupportedSchemeReconciler.lookup s = none :=
    ⟨"CaffeJob", by decide, rfl⟩
  ⟨h, unsupported_scheme_is_fatal sampleEnv _ h⟩

/-- C2: without an `enable-scheme` selector all supported kinds are enabled.
Such a command line always parses, the list of enabled schemes is empty after
parsing and is filled with exactly the keys of the registry; whenever the
manager is started, the setup function of every kind of the registry has been
invoked before; and when the manager is created and every setup function
succeeds, the run begins with one invocation per kind of the registry. -/
theorem default_enables_all_kinds {κ σ : Type} (env : Env κ σ) (args : List FlagArg)
    (hno : schemeSelectors args = []) :
    ∃ f, parseFlags env.SupportedSchemeReconciler args defaultFlags = Except.ok f ∧
      f.enabledSchemes = [] ∧
      effectiveSchemes env.SupportedSchemeReconciler f.enabledSchemes =
        env.SupportedSchemeReconciler.kinds ∧
      (∀ pre post, (main env args).events = pre ++ Event.start :: post →
        ∀ k ∈ env.SupportedSchemeReconciler.kinds,
          Event.setup k f.enableGangScheduling ∈ pre) ∧
      (∀ cfg mgr, env.GetConfigOrDie = some cfg →
        env.NewManager cfg (managerOptions f) = Except.ok mgr →
        (∀ k ∈ env.SupportedSchemeReconciler.kinds, ∀ m b,
          (env.SupportedSchemeReconciler.setupFunc k m b).1 = none) →
        ∃ rest, (main env args).events =
            env.SupportedSchemeReconciler.kinds.map
              (fun k => Event.setup k f.enableGangScheduling) ++ rest ∧
          ∀ e ∈ rest, e.isSetup = false) := by
  obtain ⟨f, hparse, hes⟩ :=
    parseFlags_no_selector env.SupportedSchemeReconciler args defaultFlags hno
  have hes' : f.enabledSchemes = [] := hes
  have heff : effectiveSchemes env.SupportedSchemeReconciler f.enabledSchemes =
      env.SupportedSchemeReconciler.kinds := by
    rw [hes']; exact effectiveSchemes_nil _
  have hmain : main env args = mainAfterParse env f := by
    unfold main; rw [hparse]
  refine ⟨f, hparse, hes', heff, ?_, ?_⟩
  · intro pre post hsplit k hk
    have hstart : Event.start ∈ (mainAfterParse env f).events := by
      rw [← hmain, hsplit]; simp
    obtain ⟨cfg, mgr, evs, mgr', -, -, hl, hev, -⟩ := mainAfterParse_started env f hstart
    obtain ⟨hevs, -, -, -⟩ := setupReconcilers_some _ _ _ _ _ _ hl
    rw [heff] at hevs
    rw [hmain, hev] at hsplit
    refine mem_before_of_split Event.start evs _ pre post ?_ hsplit _ ?_
    · rw [hevs]; simp
    · rw [hevs]; exact List.mem_map.2 ⟨k, hk, rfl⟩
  · intro cfg mgr hcfg hmgr hall
    have hsup : ∀ s ∈ effectiveSchemes env.SupportedSchemeReconciler f.enabledSchemes,
        (env.SupportedSchemeReconciler.lookup s).isSome = true := by
      intro s hs
      rw [heff] at hs
      exact (lookup_isSome_iff _ s).2 hs
    have hok : SetupsSucceed env.SupportedSchemeReconciler f.enableGangScheduling
        (effectiveSchemes env.SupportedSchemeReconciler f.enabledSchemes) mgr := by
      intro pre s post sf hsplit hlook
      have hs : s ∈ env.SupportedSchemeReconciler.kinds := by
        rw [← heff, hsplit]; simp
      rw [lookup_of_mem _ s hs] at hlook
      cases hlook
      exact hall s hs _ _
    have := mainAfterParse_events_of_ok env f cfg mgr hcfg hmgr hsup hok
    rw [heff] at this
    exact ⟨_, by rw [hmain]; exact this, checksAndStart_no_setup env _⟩

/-- Witness of C2: a command line that only switches gang scheduling on. -/
theorem default_enables_all_kinds_witness :
    schemeSelectors [FlagArg.enableGangScheduling true] = [] ∧
    ∃ f, parseFlags sampleEnv.SupportedSchemeReconciler [FlagArg.enableGangScheduling true]
        defaultFlags = Except.ok f ∧
      f.enabledSchemes = [] ∧
      effectiveSchemes sampleEnv.SupportedSchemeReconciler f.enabledSchemes =
        sampleEnv.SupportedSchemeReconciler.kinds ∧
      (∀ pre post, (main sampleEnv [FlagArg.enableGangScheduling true]).events =
          pre ++ Event.start :: post →
        ∀ k ∈ sampleEnv.SupportedSchemeReconciler.kinds,
          Event.setup k f.enableGangScheduling ∈ pre) ∧
      (∀ cfg mgr, sampleEnv.GetConfigOrDie = some cfg →
        sampleEnv.NewManager cfg (managerOptions f) = Except.ok mgr →
        (∀ k ∈ sampleEnv.SupportedSchemeReconciler.kinds, ∀ m b,
          (sampleEnv.SupportedSchemeReconciler.setupFunc k m b).1 = none) →
        ∃ rest, (main sampleEnv [FlagArg.enableGangScheduling true]).events =
            sampleEnv.SupportedSchemeReconciler.kinds.map
              (fun k => Event.setup k f.enableGangScheduling) ++ rest ∧
          ∀ e ∈ rest, e.isSetup = false) :=
  ⟨rfl, default_enables_all_kinds sampleEnv [FlagArg.enableGangScheduling true] rfl⟩

/-- C3: the gang scheduling flag applies globally.  Every setup function invoked
by `main` receives the value of the flag variable, whatever the list of enabled
schemes; after a successful parse that value is the one given by the last
occurrence of the flag, and it is false when the flag is not given. -/
theorem gang_scheduling_flag_is_global {κ σ : Type} (env : Env κ σ) (args : List FlagArg)
    (f : Flags)
    (hparse : parseFlags env.SupportedSchemeReconciler args defaultFlags = Except.ok f) :
    (∀ (f' : Flags) k b, Event.setup k b ∈ (mainAfterParse env f').events →
      b = f'.enableGangScheduling) ∧
    (∀ k b, Event.setup k b ∈ (main env args).events → b = f.enableGangScheduling) ∧
    f.enableGangScheduling = (gangOccurrences args).getLast?.getD false ∧
    (gangOccurrences args = [] → f.enableGangScheduling = false) := by
  have hg := parseFlags_gang env.SupportedSchemeReconciler args defaultFlags f hparse
  have hg' : f.enableGangScheduling = (gangOccurrences args).getLast?.getD false := hg
  refine ⟨fun f' k b h => mainAfterParse_setup_arg env f' k b h, ?_, hg', ?_⟩
  · intro k b h
    have hmain : main env args = mainAfterParse env f := by
      unfold main; rw [hparse]
    rw [hmain] at h
    exact mainAfterParse_setup_arg env f k b h
  · intro hnone
    rw [hg', hnone]
    rfl

/-- Witness of C3: one selector in lower case and the gang scheduling flag. -/
theorem gang_scheduling_flag_is_global_witness :
    parseFlags sampleEnv.SupportedSchemeReconciler
        [FlagArg.enableScheme "tfjob", FlagArg.enableGangScheduling true] defaultFlags =
      Except.ok ⟨":8080", ":8081", false, ["TFJob"], true⟩ ∧
    (main sampleEnv [FlagArg.enableScheme "tfjob", FlagArg.enableGangScheduling true]).events =
      [Event.setup "TFJob" true, Event.addHealthzCheck, Event.addReadyzCheck,
        Event.infoLog "starting manager", Event.start] ∧
    (∀ k b, Event.setup k b ∈
        (main sampleEnv [FlagArg.enableScheme "tfjob", FlagArg.enableGangScheduling true]).events →
      b = true) :=
  have h : parseFlags sampleEnv.SupportedSchemeReconciler
        [FlagArg.enableScheme "tfjob", FlagArg.enableGangScheduling true] defaultFlags =
      Except.ok ⟨":8080", ":8081", false, ["TFJob"], true⟩ := rfl
  ⟨h, by decide,
    (gang_scheduling_flag_is_global sampleEnv
      [FlagArg.enableScheme "tfjob", FlagArg.enableGangScheduling true] _ h).2.1⟩

/-- C4, as stated, fails: with the kind "TFJob" enabled twice, both entries
supported and every setup call succeeding, the startup completes and the setup
function of "TFJob" has been invoked twice, not once. -/
theorem repeated_kind_is_set_up_twice :
    (∀ s ∈ ["TFJob", "TFJob"], (sampleEnv.SupportedSchemeReconciler.lookup s).isSome = true) ∧
    SetupsSucceed sampleEnv.SupportedSchemeReconciler false ["TFJob", "TFJob"] [] ∧
    (mainAfterParse sampleEnv ⟨":8080", ":8081", false, ["TFJob", "TFJob"], false⟩).exitStatus = 0 ∧
    "TFJob" ∈ ["TFJob", "TFJob"] ∧
    setupCount "TFJob"
      (mainAfterParse sampleEnv ⟨":8080", ":8081", false, ["TFJob", "TFJob"], false⟩).events = 2 ∧
    setupCount "TFJob"
      (mainAfterParse sampleEnv ⟨":8080", ":8081", false, ["TFJob", "TFJob"], false⟩).events ≠ 1 := by
  refine ⟨by decide, ?_, by decide, by decide, by decide, by decide⟩
  intro pre s post sf _ hlook
  unfold Registry.lookup at hlook
  split at hlook
  · cases hlook
    rfl
  · cases hlook

/-- C4, amended: when the configuration and the manager are obtained, every
entry of the list of enabled schemes is supported and every setup call
succeeds, the setup function of each kind is invoked once per occurrence of the
kind in the list; in a list that names no kind twice, the setup function of
each kind of the list is invoked exactly once. -/
theorem setup_invoked_once_per_entry {κ σ : Type} (env : Env κ σ) (f : Flags) (cfg : κ)
    (mgr : σ) (hcfg : env.GetConfigOrDie = some cfg)
    (hmgr : env.NewManager cfg (managerOptions f) = Except.ok mgr)
    (hsup : ∀ s ∈ effectiveSchemes env.SupportedSchemeReconciler f.enabledSchemes,
      (env.SupportedSchemeReconciler.lookup s).isSome = true)
    (hok : SetupsSucceed env.SupportedSchemeReconciler f.enableGangScheduling
      (effectiveSchemes env.SupportedSchemeReconciler f.enabledSchemes) mgr) :
    (f.enabledSchemes ≠ [] →
      effectiveSchemes env.SupportedSchemeReconciler f.enabledSchemes = f.enabledSchemes) ∧
    (∀ k, setupCount k (mainAfterParse env f).events =
      (effectiveSchemes env.SupportedSchemeReconciler f.enabledSchemes).count k) ∧
    ((effectiveSchemes env.SupportedSchemeReconciler f.enabledSchemes).Nodup →
      ∀ k ∈ effectiveSchemes env.SupportedSchemeReconciler f.enabledSchemes,
        setupCount k (mainAfterParse env f).events = 1) := by
  have hev := mainAfterParse_events_of_ok env f cfg mgr hcfg hmgr hsup hok
  have hcount : ∀ k, setupCount k (mainAfterParse env f).events =
      (effectiveSchemes env.SupportedSchemeReconciler f.enabledSchemes).count k := by
    intro k
    rw [hev, setupCount_append, setupCount_map,
      setupCount_of_no_setup k _ (checksAndStart_no_setup env _)]
    rfl
  refine ⟨effectiveSchemes_of_ne_nil _ _, hcount, ?_⟩
  intro hnd k hk
  rw [hcount k]
  exact List.count_eq_one_of_mem hnd hk

/-- Witness of C4, amended: two distinct kinds, each set up once. -/
theorem setup_invoked_once_per_entry_witness :
    setupCount "TFJob"
      (mainAfterParse sampleEnv ⟨":8080", ":8081", false, ["PyTorchJob", "TFJob"], false⟩).events
      = 1 :=
  (setup_invoked_once_per_entry sampleEnv ⟨":8080", ":8081", false, ["PyTorchJob", "TFJob"], false⟩
    () [] rfl rfl (by decide)
    (by
      intro pre s post sf _ hlook
      unfold Registry.lookup at hlook
      split at hlook
      · cases hlook
        rfl
      · cases hlook)).2.2 (by decide) "TFJob" (by decide)

/-- C5: enabled scheme names are case insensitive.  For a supported kind `k`
and any value `v` that equals `k` up to letter case (the supported kinds being
distinct up to letter case), the flag accepts `v` and records `k`, which is a
key of the registry; a command line whose only selector is `v` makes the setup
function of `k` the first call after the manager is created; and for every
command line holding the selector `v` that parses, `k` is on the list of
enabled schemes, no scheme is reported as unsupported, and the setup function
of `k` has been invoked whenever the manager is started. -/
theorem enable_scheme_is_case_insensitive {κ σ : Type} (env : Env κ σ) (k v : String)
    (hk : k ∈ env.SupportedSchemeReconciler.kinds) (hv : ToLower v = ToLower k)
    (hcase : ∀ k' ∈ env.SupportedSchemeReconciler.kinds, ToLower k' = ToLower k → k' = k) :
    (∀ es, EnabledSchemes.Set env.SupportedSchemeReconciler es v = Except.ok (es ++ [k])) ∧
    env.SupportedSchemeReconciler.lookup k = some (env.SupportedSchemeReconciler.setupFunc k) ∧
    (∀ cfg mgr, env.GetConfigOrDie = some cfg →
      env.NewManager cfg (managerOptions ⟨":8080", ":8081", false, [k], false⟩) = Except.ok mgr →
      ∃ rest, (main env [FlagArg.enableScheme v]).events = Event.setup k false :: rest) ∧
    (∀ args f, parseFlags env.SupportedSchemeReconciler args defaultFlags = Except.ok f →
      FlagArg.enableScheme v ∈ args →
      k ∈ f.enabledSchemes ∧
      Event.errorLog "scheme not supported" ∉ (main env args).events ∧
      (Event.start ∈ (main env args).events →
        Event.setup k f.enableGangScheduling ∈ (main env args).events)) := by
  have hset := fun es => set_variant env.SupportedSchemeReconciler es k v hk hv hcase
  have hlook := lookup_of_mem env.SupportedSchemeReconciler k hk
  refine ⟨hset, hlook, ?_, ?_⟩
  · intro cfg mgr hcfg hmgr
    have hparse : parseFlags env.SupportedSchemeReconciler [FlagArg.enableScheme v] defaultFlags =
        Except.ok ⟨":8080", ":8081", false, [k], false⟩ := by
      simp [parseFlags, parseStep, hset, defaultFlags]
    unfold main
    rw [hparse]
    simp only
    rw [mainAfterParse_of_manager env _ cfg mgr hcfg hmgr]
    simp only [effectiveSchemes, EnabledSchemes.Empty, List.length_singleton]
    simp only [setupReconcilers, hlook]
    rcases hres : env.SupportedSchemeReconciler.setupFunc k mgr false with ⟨err, m1⟩
    cases err with
    | some e => exact ⟨_, rfl⟩
    | none => exact ⟨_, rfl⟩
  · intro args f hparse hmem
    have hkf := parseFlags_variant env.SupportedSchemeReconciler k v hk hv hcase args
      defaultFlags f hparse hmem
    have hsupp : ∀ s ∈ f.enabledSchemes, s ∈ env.SupportedSchemeReconciler.kinds :=
      (parseFlags_schemes env.SupportedSchemeReconciler args defaultFlags f hparse).2
        (by simp [defaultFlags])
    have hne : f.enabledSchemes ≠ [] := List.ne_nil_of_mem hkf
    have heff := effectiveSchemes_of_ne_nil env.SupportedSchemeReconciler f.enabledSchemes hne
    have hmain : main env args = mainAfterParse env f := by
      unfold main; rw [hparse]
    refine ⟨hkf, ?_, ?_⟩
    · rw [hmain]
      cases hcfg : env.GetConfigOrDie with
      | none => simp [mainAfterParse, hcfg]
      | some cfg =>
          cases hmgr : env.NewManager cfg (managerOptions f) with
          | error e => simp [mainAfterParse, hcfg, hmgr]
          | ok mgr =>
              rw [mainAfterParse_of_manager env f cfg mgr hcfg hmgr, heff]
              have hlog := setupReconcilers_no_unsupported_log env.SupportedSchemeReconciler
                f.enableGangScheduling f.enabledSchemes mgr hsupp
              rcases hl : setupReconcilers env.SupportedSchemeReconciler
                f.enableGangScheduling f.enabledSchemes mgr with ⟨evs, o⟩
              rw [hl] at hlog
              cases o with
              | none => exact hlog
              | some mgr' =>
                  simp only
                  intro hin
                  rcases List.mem_append.1 hin with hin | hin
                  · exact hlog hin
                  · exact checksAndStart_no_unsupported_log env mgr' hin
    · intro hstart
      rw [hmain] at hstart ⊢
      obtain ⟨cfg, mgr, evs, mgr', -, -, hl, hev, -⟩ := mainAfterParse_started env f hstart
      obtain ⟨hevs, -, -, -⟩ := setupReconcilers_some _ _ _ _ _ _ hl
      rw [hev, hevs, heff]
      exact List.mem_append_left _ (List.mem_map.2 ⟨k, hkf, rfl⟩)

/-- Witness of C5: the kind "PyTorchJob" written in lower case. -/
theorem enable_scheme_is_case_insensitive_witness :
    "PyTorchJob" ∈ sampleEnv.SupportedSchemeReconciler.kinds ∧
    ToLower "pytorchjob" = ToLower "PyTorchJob" ∧
    (∀ es, EnabledSchemes.Set sampleEnv.SupportedSchemeReconciler es "pytorchjob" =
      Except.ok (es ++ ["PyTorchJob"])) ∧
    (main sampleEnv [FlagArg.enableScheme "pytorchjob"]).events =
      [Event.setup "PyTorchJob" false, Event.addHealthzCheck, Event.addReadyzCheck,
        Event.infoLog "starting manager", Event.start] :=
  ⟨by decide, by decide,
    (enable_scheme_is_case_insensitive sampleEnv "PyTorchJob" "pytorchjob" (by decide) (by decide)
      (by decide)).1,
    by decide⟩

/-- C6, evaluated on the code: the usage text of `enable-scheme` names the four
kinds of `usageKinds`, while `init` registers the API types of five job kinds,
those four and "MPIJob" (package `mpiv1`), which the usage text does not name;
the two sets differ. -/
theorem scheme_registers_kind_missing_from_usage :
    enableSchemeUsage =
      "Enable scheme(s) as --enable-scheme=tfjob --enable-scheme=pytorchjob, case insensitive." ++
      " Now supporting " ++ ", ".intercalate usageKinds ++
      ". By default, all supported schemes will be enabled." ∧
    schemeJobKinds = ["XGBoostJob", "PyTorchJob", "TFJob", "MXNetJob", "MPIJob"] ∧
    (∀ k ∈ usageKinds, k ∈ schemeJobKinds) ∧
    ApiPackage.mpiv1 ∈ init ∧
    "MPIJob" ∈ schemeJobKinds ∧ "MPIJob" ∉ usageKinds ∧
    ¬ (∀ k, k ∈ schemeJobKinds ↔ k ∈ usageKinds) := by
  refine ⟨rfl, by decide, by decide, by decide, by decide, by decide, ?_⟩
  intro h
  exact absurd ((h "MPIJob").1 (by decide)) (by decide)

/-- C7: the manager is started exactly when the configuration and the manager
were obtained, every name of the (possibly filled) list of enabled schemes is a
key of the registry, every invoked setup function returned nil and both checks
were added without error; and then the run consists of one setup invocation per
list entry, in list order, followed by the two checks and the start of the
manager, with no further setup invocation. -/
theorem manager_started_iff {κ σ : Type} (env : Env κ σ) (f : Flags) :
    (Event.start ∈ (mainAfterParse env f).events ↔
      ∃ cfg mgr, env.GetConfigOrDie = some cfg ∧
        env.NewManager cfg (managerOptions f) = Except.ok mgr ∧
        (∀ s ∈ effectiveSchemes env.SupportedSchemeReconciler f.enabledSchemes,
          (env.SupportedSchemeReconciler.lookup s).isSome = true) ∧
        SetupsSucceed env.SupportedSchemeReconciler f.enableGangScheduling
          (effectiveSchemes env.SupportedSchemeReconciler f.enabledSchemes) mgr ∧
        (env.AddHealthzCheck
          (managerAfter env.SupportedSchemeReconciler f.enableGangScheduling
            (effectiveSchemes env.SupportedSchemeReconciler f.enabledSchemes) mgr)
          "healthz").1 = none ∧
        (env.AddReadyzCheck
          (env.AddHealthzCheck
            (managerAfter env.SupportedSchemeReconciler f.enableGangScheduling
              (effectiveSchemes env.SupportedSchemeReconciler f.enabledSchemes) mgr)
            "healthz").2 "readyz").1 = none) ∧
    (Event.start ∈ (mainAfterParse env f).events →
      ∃ tail, (mainAfterParse env f).events =
          (effectiveSchemes env.SupportedSchemeReconciler f.enabledSchemes).map
            (fun s => Event.setup s f.enableGangScheduling) ++
          [Event.addHealthzCheck, Event.addReadyzCheck, Event.infoLog "starting manager",
            Event.start] ++ tail ∧
        ∀ e ∈ tail, e.isSetup = false) := by
  constructor
  · constructor
    · intro h
      obtain ⟨cfg, mgr, evs, mgr', hcfg, hmgr, hl, -, hcs⟩ := mainAfterParse_started env f h
      obtain ⟨-, hm, hsup, hok⟩ := setupReconcilers_some _ _ _ _ _ _ hl
      subst hm
      exact ⟨cfg, mgr, hcfg, hmgr, hsup, hok, (checksAndStart_start env _).1 hcs⟩
    · rintro ⟨cfg, mgr, hcfg, hmgr, hsup, hok, hh, hr⟩
      rw [mainAfterParse_events_of_ok env f cfg mgr hcfg hmgr hsup hok]
      exact List.mem_append_right _ ((checksAndStart_start env _).2 ⟨hh, hr⟩)
  · intro h
    obtain ⟨cfg, mgr, evs, mgr', -, -, hl, hev, hcs⟩ := mainAfterParse_started env f h
    obtain ⟨hevs, -, -, -⟩ := setupReconcilers_some _ _ _ _ _ _ hl
    obtain ⟨tail, htail, hno⟩ := checksAndStart_started env mgr' hcs
    refine ⟨tail, ?_, hno⟩
    rw [hev, hevs, htail, List.append_assoc]

/-- Witness of C7: two supported kinds, every collaborator succeeding. -/
theorem manager_started_iff_witness :
    Event.start ∈
      (mainAfterParse sampleEnv ⟨":8080", ":8081", false, ["PyTorchJob", "TFJob"], true⟩).events ∧
    ∃ tail,
      (mainAfterParse sampleEnv ⟨":8080", ":8081", false, ["PyTorchJob", "TFJob"], true⟩).events =
        (effectiveSchemes sampleEnv.SupportedSchemeReconciler ["PyTorchJob", "TFJob"]).map
          (fun s => Event.setup s true) ++
        [Event.addHealthzCheck, Event.addReadyzCheck, Event.infoLog "starting manager",
          Event.start] ++ tail ∧
      ∀ e ∈ tail, e.isSetup = false :=
  ⟨by decide,
    (manager_started_iff sampleEnv ⟨":8080", ":8081", false, ["PyTorchJob", "TFJob"], true⟩).2
      (by decide)⟩

end TrainingOperator
